import Mathlib

/-!
# Shallow embedding of `find-forex-SRs.py`

This file embeds the core pipeline of the S&R-zone finder:

* `mymax`, `find_extrema` — the Extrema Detector (`find_extrema`, `mymax`);
* `cluster_zones` and its pieces (`collectWindow`, `dayZones`, `dayStep`) — the
  Window Clusterer and Zone Calendar Builder;
* `zones_to_levels` — the Interval Compactor;
* `mainPairCheck` — the JPY handling in `main`.

Dates are modelled as integers (one unit = one day); `weekday d = d % 7` with
the convention that day `0` is a Monday, matching Python's
`datetime.weekday()` (Monday = 0, …, Friday = 4).  Prices are rationals.
The clustering primitive (`cluster_sk`) is an external black box and is taken
as a function parameter `cluster : List ℚ → List ℚ`.
-/

namespace FindSRs

/-- A bar / extremum: `(timestamp, close)` as in the Python tuples; timestamps
are integer days. -/
abbrev Bar := ℤ × ℚ

/-- Python's `datetime.weekday()`: Monday = 0, …, Friday = 4 (day 0 is a Monday). -/
def weekday (d : ℤ) : ℤ := d % 7

/-- Python's `round(x, 4)`: round to 4 decimal places.  (The exact tie-breaking
direction of float `round` is immaterial here; no claim depends on ties.) -/
def round4 (x : ℚ) : ℚ := (round (x * 10000) : ℤ) / 10000

/-- Python's `min(values_l)` on a list (unused default on `[]`, where Python raises). -/
def listMin : List ℚ → ℚ
  | [] => 0
  | x :: xs => xs.foldl min x

/-- Python's `max(values_l)` on a list (unused default on `[]`, where Python raises). -/
def listMax : List ℚ → ℚ
  | [] => 0
  | x :: xs => xs.foldl max x

/-! ## Window Clusterer (`cluster_zones`) -/

/-- The inner collection loop of `cluster_zones` (lines 71–74): the prices of
all extrema whose timestamp lies in `[start_date, curr_date]`. -/
def collectWindow (extrema : List Bar) (start_date curr_date : ℤ) : List ℚ :=
  (extrema.filter fun e => decide (start_date ≤ e.1 ∧ e.1 ≤ curr_date)).map Prod.snd

/-- The bounce-counting loop (lines 91–94): the number of collected values
within one-half `zone_width` (strictly) of the cluster representative. -/
def touchCount (values_l : List ℚ) (cluster : ℚ) (zone_width : ℚ) : ℕ :=
  (values_l.filter fun value => decide (|cluster - value| < zone_width / 2)).length

/-- `zones_l` (lines 89–95): each cluster representative rounded to 4 decimals,
paired with its touch count (counted against the unrounded representative). -/
def zonesWithCounts (values_l : List ℚ) (zone_width : ℚ) (clusters_l : List ℚ) :
    List (ℚ × ℕ) :=
  clusters_l.map fun cluster => (round4 cluster, touchCount values_l cluster zone_width)

/-- `zones_l2` before min/max are appended (lines 101–104): keep the prices
whose touch count is at least `min_touches`. -/
def keptZones (values_l : List ℚ) (zone_width : ℚ) (min_touches : ℤ)
    (clusters_l : List ℚ) : List ℚ :=
  ((zonesWithCounts values_l zone_width clusters_l).filter
    fun pc => decide (min_touches ≤ (pc.2 : ℤ))).map Prod.fst

/-- The spec's wording of Window Clusterer steps 5–6: count, for each
*unrounded* representative, the collected values within `zone_width / 2`
(strict), keep the representatives whose count reaches `min_touches`, and
round the kept ones to 4 decimal places.  Stated independently of the code's
`zones_l` bookkeeping, for comparison with `keptZones`. -/
def keptZonesSpec (values_l : List ℚ) (zone_width : ℚ) (min_touches : ℤ)
    (clusters_l : List ℚ) : List ℚ :=
  (clusters_l.filter fun c =>
    decide (min_touches ≤
      ((values_l.countP fun v => decide (|c - v| < zone_width / 2)) : ℤ))).map round4

/-- The final `zones_l2` of a processed day (lines 101–107): kept zones plus the
window's min and max close, sorted ascending. -/
def dayZones (values_l : List ℚ) (zone_width : ℚ) (min_touches : ℤ)
    (clusters_l : List ℚ) : List ℚ :=
  (keptZones values_l zone_width min_touches clusters_l
    ++ [listMin values_l, listMax values_l]).mergeSort (fun a b => decide (a ≤ b))

/-- One iteration of the day loop of `cluster_zones` (lines 66–116), as the
list of dictionary writes it performs: empty when the day is skipped
(fewer than 25 collected values), otherwise the write(s) dictated by the
weekday rule (Friday writes `D+2` and `D+3`, any other day writes `D+1`). -/
def dayStep (extrema : List Bar) (min_touches : ℤ) (period : ℤ) (zone_width : ℚ)
    (cluster : List ℚ → List ℚ) (curr_date : ℤ) : List (ℤ × List ℚ) :=
  let start_date := curr_date - period
  let values_l := collectWindow extrema start_date curr_date
  if values_l.length < 25 then []
  else
    let zones_l2 := dayZones values_l zone_width min_touches (cluster values_l)
    if weekday curr_date = 4 then
      [(curr_date + 2, zones_l2), (curr_date + 3, zones_l2)]
    else
      [(curr_date + 1, zones_l2)]

/-- The `while curr_date < to_date` loop of `cluster_zones` (lines 62–116),
structurally recursive on the iteration count: each iteration first advances
`curr_date` by one day and then runs the body on the new value. -/
def clusterZonesLoop (extrema : List Bar) (to_date : ℤ) (min_touches : ℤ)
    (period : ℤ) (zone_width : ℚ) (cluster : List ℚ → List ℚ) :
    ℕ → ℤ → List (ℤ × List ℚ)
  | 0, _ => []
  | fuel + 1, curr_date =>
    if curr_date < to_date then
      dayStep extrema min_touches period zone_width cluster (curr_date + 1)
        ++ clusterZonesLoop extrema to_date min_touches period zone_width cluster
            fuel (curr_date + 1)
    else []

/-- `cluster_zones` (lines 50–117), with the dictionary `period_zones_d`
represented as the ordered list of write events it receives.  The loop starts
at `from_date - 1` and runs exactly `(to_date - from_date + 1).toNat` times
(the iteration count of `while curr_date < to_date`). -/
def cluster_zones (extrema : List Bar) (from_date to_date : ℤ) (min_touches : ℤ)
    (period : ℤ) (zone_width : ℚ) (cluster : List ℚ → List ℚ) :
    List (ℤ × List ℚ) :=
  clusterZonesLoop extrema to_date min_touches period zone_width cluster
    (to_date - from_date + 1).toNat (from_date - 1)

/-- The value a Python dict holds at key `k` after the given ordered list of
write events: the last write wins. -/
def calLookup (writes : List (ℤ × List ℚ)) (k : ℤ) : Option (List ℚ) :=
  ((writes.filter fun e => decide (e.1 = k)).getLast?).map Prod.snd

/-- Just the day values visited by the loop of lines 62–65 (the days the loop
body runs on, whether or not they are skipped by the `< 25` check). -/
def loopDaysAux (to_date : ℤ) : ℕ → ℤ → List ℤ
  | 0, _ => []
  | fuel + 1, curr_date =>
    if curr_date < to_date then
      (curr_date + 1) :: loopDaysAux to_date fuel (curr_date + 1)
    else []

/-- The days processed by `cluster_zones`' day loop. -/
def loopDays (from_date to_date : ℤ) : List ℤ :=
  loopDaysAux to_date (to_date - from_date + 1).toNat (from_date - 1)

/-! ## Extrema Detector (`find_extrema`, `mymax`) -/

/-- `bars[i][1]` with a (never hit, in-range) default. -/
def priceAt (bars : List Bar) (i : ℕ) : ℚ := (bars.getD i ((0 : ℤ), (0 : ℚ))).2

/-- `bars[i]` with a (never hit, in-range) default. -/
def barAt (bars : List Bar) (i : ℕ) : Bar := bars.getD i ((0 : ℤ), (0 : ℚ))

/-- The loop body of `mymax` (lines 233–243): update the best index/value on a
*strictly* better value (so on ties the earlier occurrence is kept). -/
def mymaxStep (direction : ℤ) (bars : List Bar) (start : ℕ)
    (best : Option (ℕ × ℚ)) (j : ℕ) : Option (ℕ × ℚ) :=
  let idx := start + j
  let val := priceAt bars idx
  match best with
  | none => some (idx, val)
  | some (best_idx, best_val) =>
    if direction = 1 ∧ val > best_val then some (idx, val)
    else if direction = -1 ∧ val < best_val then some (idx, val)
    else some (best_idx, best_val)

/-- `mymax` (lines 229–244): highest (`direction = 1`) or lowest
(`direction = -1`) value in `bars[start : start + width]`, together with its
index; on ties the first occurrence wins because the update is strict. -/
def mymax (direction : ℤ) (bars : List Bar) (start width : ℕ) : Option (ℕ × ℚ) :=
  (List.range width).foldl (mymaxStep direction bars start) none

/-- The peak test (lines 171–176) at one cursor position and width: the window
maximum must exceed the first and last bars by more than `th` and strictly
exceed the second and second-to-last bars. -/
def peakTest (bars : List Bar) (idx width : ℕ) (th : ℚ) : Option Bar :=
  match mymax 1 bars idx width with
  | none => none
  | some (peak_idx, peak_val) =>
    if peak_val - priceAt bars (idx + 0) > th ∧
        peak_val - priceAt bars (idx + width - 1) > th ∧
        peak_val > priceAt bars (idx + 1) ∧
        peak_val > priceAt bars (idx + width - 2) then
      some (barAt bars peak_idx)
    else none

/-- The valley test (lines 179–184), symmetric to `peakTest`. -/
def valleyTest (bars : List Bar) (idx width : ℕ) (th : ℚ) : Option Bar :=
  match mymax (-1) bars idx width with
  | none => none
  | some (low_idx, low_val) =>
    if priceAt bars (idx + 0) - low_val > th ∧
        priceAt bars (idx + width - 1) - low_val > th ∧
        low_val < priceAt bars (idx + 1) ∧
        low_val < priceAt bars (idx + width - 2) then
      some (barAt bars low_idx)
    else none

/-- One width of the inner `for width in range(4, 12)` body: peak first, then
valley. -/
def tryWidth (bars : List Bar) (idx : ℕ) (th : ℚ) (width : ℕ) : Option Bar :=
  match peakTest bars idx width th with
  | some b => some b
  | none => valleyTest bars idx width th

/-- The inner width loop (lines 168–184): first width (in order) whose peak or
valley test fires, with the recorded extremum. -/
def findWidth (bars : List Bar) (idx : ℕ) (th : ℚ) : List ℕ → Option (Bar × ℕ)
  | [] => none
  | w :: ws =>
    match tryWidth bars idx th w with
    | some b => some (b, w)
    | none => findWidth bars idx th ws

/-- `range(4, 12)`: candidate pattern widths. -/
def widths : List ℕ := [4, 5, 6, 7, 8, 9, 10, 11]

/-- The scan loop of `find_extrema` (lines 158–187), annotated with the cursor
position (detection window start) at which each extremum was recorded.  The
cursor advances by the winning width on a match and by 1 otherwise; one unit
of fuel is spent per iteration, and `find_extrema` supplies more fuel than the
loop can ever consume. -/
def findExtremaLoop (bars : List Bar) (min_ht : ℚ) : ℕ → ℕ → List (ℕ × Bar)
  | 0, _ => []
  | fuel + 1, idx =>
    if idx < bars.length - 12 then
      -- th = bars[idx][1] * min_ht / 100, re-derived from the current bar
      match findWidth bars idx (priceAt bars idx * min_ht / 100) widths with
      | some (b, w) => (idx, b) :: findExtremaLoop bars min_ht fuel (idx + w)
      | none => findExtremaLoop bars min_ht fuel (idx + 1)
    else []

/-- `find_extrema` (lines 153–187): the recorded extrema, in scan order. -/
def find_extrema (bars : List Bar) (min_ht : ℚ) : List Bar :=
  (findExtremaLoop bars min_ht bars.length 0).map Prod.snd

/-! ## Interval Compactor (`zones_to_levels`) -/

/-- The loop state of `zones_to_levels`: the emitted `levels` and the
`cur_prices` dict (price ↦ date it was opened), as an insertion-ordered
association list. -/
structure LevelsState where
  levels : List (ℚ × (ℤ × ℤ))
  cur_prices : List (ℚ × ℤ)
  deriving DecidableEq

/-- One iteration of the loop of `zones_to_levels` (lines 137–146): prices
present now but not open are opened at `date`; open prices absent now are
closed, emitting `(price, (start, date))`.  (Python iterates the two set
differences in unspecified order; here `to_add` follows the order of `prices`
and the removals follow the order of `cur_prices`.) -/
def levelsStep (st : LevelsState) (date : ℤ) (prices : List ℚ) : LevelsState :=
  let to_add := prices.dedup.filter fun p => (st.cur_prices.lookup p).isNone
  let kept := st.cur_prices.filter fun pd => decide (pd.1 ∈ prices)
  let removed := st.cur_prices.filter fun pd => decide (pd.1 ∉ prices)
  { levels := st.levels ++ removed.map fun pd => (pd.1, (pd.2, date))
    cur_prices := kept ++ to_add.map fun p => (p, date) }

/-- The state after folding `zones_to_levels`' main loop over the calendar. -/
def levelsRun (period_zones : List (ℤ × List ℚ)) : LevelsState :=
  period_zones.foldl (fun st e => levelsStep st e.1 e.2) ⟨[], []⟩

/-- `zones_to_levels` (lines 131–150), with the date-keyed dict presented as
the ordered list of its entries.  After the loop, every still-open price is
closed at the last date encountered (the leaked loop variable `date`); when
the calendar is empty the final loop body never runs. -/
def zones_to_levels (period_zones : List (ℤ × List ℚ)) :
    List (ℚ × (ℤ × ℤ)) :=
  let st := levelsRun period_zones
  match period_zones.getLast? with
  | some e => st.levels ++ st.cur_prices.map fun pd => (pd.1, (pd.2, e.1))
  | none => st.levels

/-! ## `main`'s currency-pair handling (lines 294–300) -/

/-- Split a character list at every `'/'` (the executable core of Python's
`str.split('/')`: every occurrence separates, adjacent separators yield empty
pieces). -/
def splitSlashChars : List Char → List (List Char)
  | [] => [[]]
  | c :: rest =>
    let r := splitSlashChars rest
    if c = '/' then [] :: r
    else
      match r with
      | [] => [[c]]
      | g :: gs => (c :: g) :: gs

/-- Python's `curr_pair_arg.split('/')`. -/
def splitSlash (s : String) : List String :=
  (splitSlashChars s.toList).map fun cs => String.mk cs

/-- The pair check and JPY adjustment in `main`: split the pair on `"/"`,
abort (`none`) unless there are exactly two legs, multiply `zone_width` by 100
when either leg is `"JPY"`, and derive the output pair name. -/
def mainPairCheck (curr_pair_arg : String) (zone_width : ℚ) : Option (String × ℚ) :=
  let curr_pair := splitSlash curr_pair_arg
  if curr_pair.length ≠ 2 then none
  else
    let zw := if curr_pair.getD 0 "" = "JPY" ∨ curr_pair.getD 1 "" = "JPY" then
        zone_width * 100
      else zone_width
    some (curr_pair.getD 0 "" ++ curr_pair.getD 1 "", zw)

/-- Concrete data reused by the witnesses: 25 extrema, all on day 0, with
prices 0, 1, …, 24. -/
def exampleExtrema : List Bar := (List.range 25).map fun i => ((0 : ℤ), (i : ℚ))

/-! ## Supporting lemmas -/

/-- The dict overwrite model: after any sequence of writes, one further write
to key `k` makes `k` hold exactly the newly written value. -/
theorem calLookup_overwrite (writes : List (ℤ × List ℚ)) (k : ℤ) (v : List ℚ) :
    calLookup (writes ++ [(k, v)]) k = some v := by
  rw [calLookup, List.filter_append]
  simp [List.getLast?_concat]

theorem loopDaysAux_mem (to_date : ℤ) :
    ∀ (fuel : ℕ) (curr_date d : ℤ), (to_date - curr_date).toNat ≤ fuel →
      (d ∈ loopDaysAux to_date fuel curr_date ↔ curr_date < d ∧ d ≤ to_date) := by
  intro fuel
  induction fuel with
  | zero =>
    intro curr d h
    simp only [loopDaysAux, List.not_mem_nil, false_iff]
    omega
  | succ fuel ih =>
    intro curr d h
    simp only [loopDaysAux]
    by_cases hc : curr < to_date
    · rw [if_pos hc]
      rw [List.mem_cons, ih (curr + 1) d (by omega)]
      omega
    · rw [if_neg hc]
      simp only [List.not_mem_nil, false_iff]
      omega

theorem loopDays_mem (from_date to_date d : ℤ) :
    d ∈ loopDays from_date to_date ↔ from_date ≤ d ∧ d ≤ to_date := by
  rw [loopDays, loopDaysAux_mem to_date _ _ _ (by omega)]
  omega

theorem touchCount_eq_countP (values_l : List ℚ) (c zone_width : ℚ) :
    touchCount values_l c zone_width =
      values_l.countP fun v => decide (|c - v| < zone_width / 2) :=
  (List.countP_eq_length_filter _ _).symm

theorem keptZones_eq_spec (values_l : List ℚ) (zone_width : ℚ) (min_touches : ℤ)
    (clusters_l : List ℚ) :
    keptZones values_l zone_width min_touches clusters_l =
      keptZonesSpec values_l zone_width min_touches clusters_l := by
  rw [keptZones, keptZonesSpec, zonesWithCounts, List.filter_map, List.map_map]
  congr 1
  congr 1
  funext c
  simp only [Function.comp_apply, touchCount_eq_countP]

theorem mem_keptZones (values_l : List ℚ) (zone_width : ℚ) (min_touches : ℤ)
    (clusters_l : List ℚ) (x : ℚ) :
    x ∈ keptZones values_l zone_width min_touches clusters_l ↔
      ∃ c ∈ clusters_l,
        min_touches ≤ (touchCount values_l c zone_width : ℤ) ∧ x = round4 c := by
  rw [keptZones_eq_spec, keptZonesSpec]
  simp only [List.mem_map, List.mem_filter, decide_eq_true_eq, touchCount_eq_countP]
  constructor
  · rintro ⟨c, ⟨hc, hcnt⟩, rfl⟩
    exact ⟨c, hc, hcnt, rfl⟩
  · rintro ⟨c, hc, hcnt, rfl⟩
    exact ⟨c, ⟨hc, hcnt⟩, rfl⟩

theorem mem_dayZones (values_l : List ℚ) (zone_width : ℚ) (min_touches : ℤ)
    (clusters_l : List ℚ) (x : ℚ) :
    x ∈ dayZones values_l zone_width min_touches clusters_l ↔
      (∃ c ∈ clusters_l,
        min_touches ≤ (touchCount values_l c zone_width : ℤ) ∧ x = round4 c) ∨
      x = listMin values_l ∨ x = listMax values_l := by
  rw [dayZones, List.mem_mergeSort, List.mem_append, mem_keptZones]
  simp

theorem sorted_dayZones (values_l : List ℚ) (zone_width : ℚ) (min_touches : ℤ)
    (clusters_l : List ℚ) :
    (dayZones values_l zone_width min_touches clusters_l).Sorted (· ≤ ·) :=
  List.sorted_mergeSort' _

theorem length_dayZones (values_l : List ℚ) (zone_width : ℚ) (min_touches : ℤ)
    (clusters_l : List ℚ) :
    2 ≤ (dayZones values_l zone_width min_touches clusters_l).length := by
  rw [dayZones, List.length_mergeSort, List.length_append]
  simp

theorem listMin_mem_dayZones (values_l : List ℚ) (zone_width : ℚ) (min_touches : ℤ)
    (clusters_l : List ℚ) :
    listMin values_l ∈ dayZones values_l zone_width min_touches clusters_l :=
  (mem_dayZones _ _ _ _ _).mpr (Or.inr (Or.inl rfl))

theorem listMax_mem_dayZones (values_l : List ℚ) (zone_width : ℚ) (min_touches : ℤ)
    (clusters_l : List ℚ) :
    listMax values_l ∈ dayZones values_l zone_width min_touches clusters_l :=
  (mem_dayZones _ _ _ _ _).mpr (Or.inr (Or.inr rfl))

theorem clusterZonesLoop_mem (extrema : List Bar) (to_date min_touches period : ℤ)
    (zone_width : ℚ) (cluster : List ℚ → List ℚ) :
    ∀ (fuel : ℕ) (curr_date : ℤ) (x : ℤ × List ℚ),
      (to_date - curr_date).toNat ≤ fuel →
      (x ∈ clusterZonesLoop extrema to_date min_touches period zone_width cluster
          fuel curr_date ↔
        ∃ d, curr_date < d ∧ d ≤ to_date ∧
          x ∈ dayStep extrema min_touches period zone_width cluster d) := by
  intro fuel
  induction fuel with
  | zero =>
    intro curr x h
    simp only [clusterZonesLoop, List.not_mem_nil, false_iff]
    rintro ⟨d, hd1, hd2, -⟩
    omega
  | succ fuel ih =>
    intro curr x h
    simp only [clusterZonesLoop]
    by_cases hc : curr < to_date
    · rw [if_pos hc, List.mem_append, ih (curr + 1) x (by omega)]
      constructor
      · rintro (hx | ⟨d, hd1, hd2, hx⟩)
        · exact ⟨curr + 1, by omega, by omega, hx⟩
        · exact ⟨d, by omega, hd2, hx⟩
      · rintro ⟨d, hd1, hd2, hx⟩
        rcases eq_or_lt_of_le (show curr + 1 ≤ d by omega) with rfl | hlt
        · exact Or.inl hx
        · exact Or.inr ⟨d, hlt, hd2, hx⟩
    · rw [if_neg hc]
      simp only [List.not_mem_nil, false_iff]
      rintro ⟨d, hd1, hd2, -⟩
      omega

theorem cluster_zones_mem (extrema : List Bar) (from_date to_date min_touches period : ℤ)
    (zone_width : ℚ) (cluster : List ℚ → List ℚ) (x : ℤ × List ℚ) :
    x ∈ cluster_zones extrema from_date to_date min_touches period zone_width cluster ↔
      ∃ d, from_date ≤ d ∧ d ≤ to_date ∧
        x ∈ dayStep extrema min_touches period zone_width cluster d := by
  rw [cluster_zones, clusterZonesLoop_mem extrema to_date min_touches period zone_width
    cluster _ _ _ (by omega)]
  constructor
  · rintro ⟨d, hd1, hd2, hx⟩
    exact ⟨d, by omega, hd2, hx⟩
  · rintro ⟨d, hd1, hd2, hx⟩
    exact ⟨d, by omega, hd2, hx⟩

theorem dayStep_mem (extrema : List Bar) (min_touches period : ℤ) (zone_width : ℚ)
    (cluster : List ℚ → List ℚ) (d : ℤ) (x : ℤ × List ℚ)
    (hx : x ∈ dayStep extrema min_touches period zone_width cluster d) :
    25 ≤ (collectWindow extrema (d - period) d).length ∧
      x.2 = dayZones (collectWindow extrema (d - period) d) zone_width min_touches
        (cluster (collectWindow extrema (d - period) d)) := by
  rw [dayStep] at hx
  by_cases h : (collectWindow extrema (d - period) d).length < 25
  · simp [h] at hx
  · refine ⟨by omega, ?_⟩
    rw [if_neg h] at hx
    split at hx
    · rcases List.mem_cons.mp hx with rfl | hx
      · rfl
      · rw [List.mem_singleton] at hx
        subst hx
        rfl
    · rw [List.mem_singleton] at hx
      subst hx
      rfl

theorem mymax_one_spec (bars : List Bar) (idx : ℕ) :
    ∀ width, 1 ≤ width →
      ∃ i v, mymax 1 bars idx width = some (i, v) ∧
        idx ≤ i ∧ i < idx + width ∧ priceAt bars i = v ∧
        (∀ j, idx ≤ j → j < idx + width → priceAt bars j ≤ v) ∧
        (∀ j, idx ≤ j → j < i → priceAt bars j < v) := by
  intro width
  induction width with
  | zero => omega
  | succ w ih =>
    intro _
    rw [mymax, List.range_succ, List.foldl_append, List.foldl_cons, List.foldl_nil]
    by_cases hw : w = 0
    · subst hw
      refine ⟨idx + 0, priceAt bars (idx + 0), rfl, by omega, by omega, rfl, ?_, ?_⟩
      · intro j hj1 hj2
        have : j = idx := by omega
        subst this
        exact le_of_eq rfl
      · intro j hj1 hj2
        omega
    · obtain ⟨i, v, heq, hi1, hi2, hpv, hub, hfirst⟩ := ih (by omega)
      rw [mymax] at heq
      rw [heq, mymaxStep]
      by_cases hgt : priceAt bars (idx + w) > v
      · rw [if_pos ⟨rfl, hgt⟩]
        refine ⟨idx + w, priceAt bars (idx + w), rfl, by omega, by omega, rfl, ?_, ?_⟩
        · intro j hj1 hj2
          by_cases hj : j = idx + w
          · subst hj
            exact le_of_eq rfl
          · exact le_of_lt (lt_of_le_of_lt (hub j hj1 (by omega)) hgt)
        · intro j hj1 hj2
          exact lt_of_le_of_lt (hub j hj1 (by omega)) hgt
      · rw [if_neg fun hc => hgt hc.2, if_neg (by rintro ⟨hc, -⟩; omega)]
        refine ⟨i, v, rfl, hi1, by omega, hpv, ?_, hfirst⟩
        intro j hj1 hj2
        by_cases hj : j = idx + w
        · subst hj
          exact le_of_not_lt hgt
        · exact hub j hj1 (by omega)

theorem peakTest_isSome_iff (bars : List Bar) (idx width : ℕ) (th : ℚ)
    (i : ℕ) (v : ℚ) (heq : mymax 1 bars idx width = some (i, v)) :
    (peakTest bars idx width th).isSome = true ↔
      (v - priceAt bars (idx + 0) > th ∧ v - priceAt bars (idx + width - 1) > th ∧
        v > priceAt bars (idx + 1) ∧ v > priceAt bars (idx + width - 2)) := by
  rw [peakTest, heq]
  split <;> simp_all

theorem findWidth_mem (bars : List Bar) (idx : ℕ) (th : ℚ) :
    ∀ (ws : List ℕ) (b : Bar) (w : ℕ),
      findWidth bars idx th ws = some (b, w) → w ∈ ws := by
  intro ws
  induction ws with
  | nil => intro b w h; simp [findWidth] at h
  | cons w0 rest ih =>
    intro b w h
    rw [findWidth] at h
    rcases htw : tryWidth bars idx th w0 with - | b0
    · rw [htw] at h
      exact List.mem_cons_of_mem _ (ih b w h)
    · rw [htw] at h
      rcases h with ⟨rfl, rfl⟩
      exact List.mem_cons_self _ _

theorem findExtremaLoop_start_ge (bars : List Bar) (min_ht : ℚ) :
    ∀ (fuel idx : ℕ) (p : ℕ × Bar),
      p ∈ findExtremaLoop bars min_ht fuel idx → idx ≤ p.1 := by
  intro fuel
  induction fuel with
  | zero => intro idx p h; simp [findExtremaLoop] at h
  | succ fuel ih =>
    intro idx p h
    rw [findExtremaLoop] at h
    by_cases hc : idx < bars.length - 12
    · rw [if_pos hc] at h
      rcases hfw : findWidth bars idx (priceAt bars idx * min_ht / 100) widths
        with - | ⟨b, w⟩
      · rw [hfw] at h
        exact le_trans (by omega) (ih (idx + 1) p h)
      · rw [hfw] at h
        rcases List.mem_cons.mp h with rfl | h
        · exact le_refl _
        · exact le_trans (by omega) (ih (idx + w) p h)
    · rw [if_neg hc] at h
      simp at h

theorem findExtremaLoop_pairwise (bars : List Bar) (min_ht : ℚ) :
    ∀ (fuel idx : ℕ),
      (findExtremaLoop bars min_ht fuel idx).Pairwise (fun a b => a.1 < b.1) := by
  intro fuel
  induction fuel with
  | zero => intro idx; simp [findExtremaLoop]
  | succ fuel ih =>
    intro idx
    rw [findExtremaLoop]
    by_cases hc : idx < bars.length - 12
    · rw [if_pos hc]
      rcases hfw : findWidth bars idx (priceAt bars idx * min_ht / 100) widths
        with - | ⟨b, w⟩
      · exact ih (idx + 1)
      · have hw : 1 ≤ w := by
          have hmem := findWidth_mem bars idx _ widths b w hfw
          simp only [widths, List.mem_cons, List.not_mem_nil, or_false] at hmem
          omega
        refine List.Pairwise.cons ?_ (ih (idx + w))
        intro p hp
        have := findExtremaLoop_start_ge bars min_ht fuel (idx + w) p hp
        simpa using by omega
    · rw [if_neg hc]
      exact List.Pairwise.nil

theorem findExtremaLoop_short (bars : List Bar) (min_ht : ℚ)
    (h : bars.length < 12) :
    ∀ (fuel idx : ℕ), findExtremaLoop bars min_ht fuel idx = [] := by
  intro fuel idx
  cases fuel with
  | zero => rfl
  | succ fuel => rw [findExtremaLoop, if_neg (by omega)]

theorem lookup_append (l₁ l₂ : List (ℚ × ℤ)) (p : ℚ) :
    (l₁ ++ l₂).lookup p = (l₁.lookup p).or (l₂.lookup p) := by
  induction l₁ with
  | nil => simp [List.lookup]
  | cons e l₁ ih =>
    obtain ⟨k, b⟩ := e
    cases h : p == k <;> simp [List.lookup_cons, h, ih]

theorem lookup_filter_key (l : List (ℚ × ℤ)) (q : ℚ → Bool) (p : ℚ) :
    (l.filter fun pd => q pd.1).lookup p = if q p then l.lookup p else none := by
  induction l with
  | nil => simp [List.lookup]
  | cons e l ih =>
    obtain ⟨k, b⟩ := e
    by_cases hq : q k
    · rw [List.filter_cons_of_pos (by simpa using hq)]
      cases h : p == k
      · simp [List.lookup_cons, h, ih]
      · have hpk : p = k := by simpa using h
        subst hpk
        simp [List.lookup_cons, hq]
    · rw [List.filter_cons_of_neg (by simpa using hq)]
      cases h : p == k
      · simp [List.lookup_cons, h, ih]
      · have hpk : p = k := by simpa using h
        subst hpk
        simp [List.lookup_cons, ih, hq]

theorem lookup_map_pair (l : List ℚ) (d : ℤ) (p : ℚ) :
    ((l.map fun p' => (p', d)).lookup p) = if p ∈ l then some d else none := by
  induction l with
  | nil => simp [List.lookup]
  | cons a l ih =>
    simp only [List.map_cons, List.lookup_cons]
    cases h : p == a
    · have hpa : p ≠ a := by simpa using h
      simp [hpa, ih]
    · have hpa : p = a := by simpa using h
      simp [hpa]

theorem levelsStep_lookup (st : LevelsState) (date : ℤ) (prices : List ℚ)
    (p : ℚ) (s : ℤ) :
    (levelsStep st date prices).cur_prices.lookup p = some s ↔
      (p ∈ prices ∧ (st.cur_prices.lookup p = some s ∨
        (st.cur_prices.lookup p = none ∧ s = date))) := by
  rw [levelsStep]
  simp only
  rw [lookup_append, lookup_filter_key st.cur_prices (fun x => decide (x ∈ prices)) p,
    lookup_map_pair]
  by_cases hmem : p ∈ prices
  · rw [if_pos (by simpa using hmem)]
    cases ht : st.cur_prices.lookup p with
    | some t =>
      have : p ∉ prices.dedup.filter fun p' => (st.cur_prices.lookup p').isNone := by
        simp [List.mem_filter, ht]
      rw [if_neg this]
      simp [hmem]
    | none =>
      have : p ∈ prices.dedup.filter fun p' => (st.cur_prices.lookup p').isNone :=
        List.mem_filter.mpr ⟨List.mem_dedup.mpr hmem, by rw [ht]; rfl⟩
      rw [if_pos this]
      simp [hmem, eq_comm]
  · rw [if_neg (by simpa using hmem)]
    have : p ∉ prices.dedup.filter fun p' => (st.cur_prices.lookup p').isNone := by
      simp only [List.mem_filter, List.mem_dedup]
      rintro ⟨hp, -⟩
      exact hmem hp
    rw [if_neg this]
    simp [hmem]

theorem levelsStep_levels (st : LevelsState) (date : ℤ) (prices : List ℚ)
    (x : ℚ × (ℤ × ℤ)) :
    x ∈ (levelsStep st date prices).levels ↔
      x ∈ st.levels ∨
        ∃ q t, (q, t) ∈ st.cur_prices ∧ q ∉ prices ∧ x = (q, (t, date)) := by
  rw [levelsStep]
  simp only [List.mem_append, List.mem_map, List.mem_filter, decide_eq_true_eq]
  constructor
  · rintro (hx | ⟨⟨q, t⟩, ⟨hqt, hq⟩, rfl⟩)
    · exact Or.inl hx
    · exact Or.inr ⟨q, t, hqt, hq, rfl⟩
  · rintro (hx | ⟨q, t, hqt, hq, rfl⟩)
    · exact Or.inl hx
    · exact Or.inr ⟨⟨q, t⟩, ⟨hqt, hq⟩, rfl⟩

theorem zones_to_levels_final (cal : List (ℤ × List ℚ)) (e : ℤ × List ℚ)
    (hlast : cal.getLast? = some e) (x : ℚ × (ℤ × ℤ)) :
    x ∈ zones_to_levels cal ↔
      x ∈ (levelsRun cal).levels ∨
        ∃ q t, (q, t) ∈ (levelsRun cal).cur_prices ∧ x = (q, (t, e.1)) := by
  rw [zones_to_levels, hlast]
  simp only [List.mem_append, List.mem_map]
  constructor
  · rintro (hx | ⟨⟨q, t⟩, hqt, rfl⟩)
    · exact Or.inl hx
    · exact Or.inr ⟨q, t, hqt, rfl⟩
  · rintro (hx | ⟨q, t, hqt, rfl⟩)
    · exact Or.inl hx
    · exact Or.inr ⟨⟨q, t⟩, hqt, rfl⟩

end FindSRs

namespace FindSRs

/-! ## Claim C1: the JPY adjustment in `main` -/

/-- **C1, counterexample.**  The claim says `zone_width` is doubled when a leg
of the pair is `"JPY"`; on the pair `"JPY/USD"` with `zone_width = 1` the code
produces `100`, not `2`. -/
theorem c1_jpy_counterexample :
    mainPairCheck "JPY/USD" 1 = some ("JPYUSD", 100) ∧
      mainPairCheck "JPY/USD" 1 ≠ some ("JPYUSD", 2) := by
  have h : splitSlash "JPY/USD" = ["JPY", "USD"] := by decide
  constructor
  · simp [mainPairCheck, h]
  · simp [mainPairCheck, h]

/-- **C1, amended.**  When either leg of the pair (split on `"/"`) equals
`"JPY"`, the caller multiplies `zone_width` by `100` (not by 2) before the
Window Clusterer is invoked; with no JPY leg it is passed through unchanged;
with a number of legs other than two the run aborts. -/
theorem c1_jpy_times_100 (curr_pair_arg : String) (zone_width : ℚ) :
    ((splitSlash curr_pair_arg).length ≠ 2 →
      mainPairCheck curr_pair_arg zone_width = none) ∧
    ((splitSlash curr_pair_arg).length = 2 →
      (mainPairCheck curr_pair_arg zone_width).map Prod.snd =
        some (if (splitSlash curr_pair_arg).getD 0 "" = "JPY" ∨
              (splitSlash curr_pair_arg).getD 1 "" = "JPY"
          then zone_width * 100 else zone_width)) := by
  constructor
  · intro h
    simp [mainPairCheck, h]
  · intro h
    have h2 : ¬((splitSlash curr_pair_arg).length ≠ 2) := by omega
    by_cases hj : (splitSlash curr_pair_arg).getD 0 "" = "JPY" ∨
        (splitSlash curr_pair_arg).getD 1 "" = "JPY"
    · simp [mainPairCheck, h2, hj]
    · simp [mainPairCheck, h2, hj]

/-- **C1, witness.** -/
theorem c1_jpy_times_100_witness :
    (mainPairCheck "JPY/USD" 1).map Prod.snd =
      some (if (splitSlash "JPY/USD").getD 0 "" = "JPY" ∨
            (splitSlash "JPY/USD").getD 1 "" = "JPY"
        then (1 : ℚ) * 100 else 1) :=
  (c1_jpy_times_100 "JPY/USD" 1).2 (by decide)

/-! ## Claim C2: the day loop's bounds -/

/-- **C2, counterexample.**  With `from_date = 0` and `to_date = 1` the day
loop runs its body on day `1 = to_date`, although the claim says a day equal
to `to_date` is never processed. -/
theorem c2_loop_counterexample :
    (1 : ℤ) ∈ loopDays 0 1 ∧ ¬ ((1 : ℤ) < 1) := ⟨by decide, by decide⟩

/-- **C2, amended.**  The day loop of the Window Clusterer processes exactly
the days `D` with `from_date ≤ D ≤ to_date`: the upper bound is *inclusive*
(the final iteration runs on `to_date` itself whenever `from_date ≤ to_date`),
and no day outside `[from_date, to_date]` is ever processed. -/
theorem c2_loop_days (from_date to_date d : ℤ) :
    d ∈ loopDays from_date to_date ↔ from_date ≤ d ∧ d ≤ to_date :=
  loopDays_mem from_date to_date d

/-! ## Claim C3: the 25-extrema threshold -/

/-- **C3.**  A processed day performs a Zone Calendar write if and only if its
trailing window collected at least 25 extremum prices: with 24 or fewer the
day is silently skipped (no write), with 25 or more it always writes. -/
theorem c3_day_skip_iff (extrema : List Bar) (min_touches : ℤ) (period : ℤ)
    (zone_width : ℚ) (cluster : List ℚ → List ℚ) (d : ℤ) :
    dayStep extrema min_touches period zone_width cluster d = [] ↔
      (collectWindow extrema (d - period) d).length < 25 := by
  rw [dayStep]
  by_cases h : (collectWindow extrema (d - period) d).length < 25
  · simp [h]
  · simp only [if_neg h]
    constructor
    · intro heq
      exfalso
      revert heq
      split <;> simp
    · intro hlt
      exact absurd hlt h

/-! ## Claim C4: shape of every Zone Calendar list -/

/-- **C4.**  Every list written into the Zone Calendar is sorted ascending,
has at least 2 elements, and contains the minimum and the maximum of the
window values collected on the day that produced it — even when no cluster
representative passed the touch filter (the `cluster` function is arbitrary
here, so in particular it may contribute nothing). -/
theorem c4_calendar_lists (extrema : List Bar) (from_date to_date min_touches period : ℤ)
    (zone_width : ℚ) (cluster : List ℚ → List ℚ) (entry : ℤ × List ℚ)
    (h : entry ∈ cluster_zones extrema from_date to_date min_touches period
      zone_width cluster) :
    entry.2.Sorted (· ≤ ·) ∧ 2 ≤ entry.2.length ∧
      ∃ d, from_date ≤ d ∧ d ≤ to_date ∧
        25 ≤ (collectWindow extrema (d - period) d).length ∧
        listMin (collectWindow extrema (d - period) d) ∈ entry.2 ∧
        listMax (collectWindow extrema (d - period) d) ∈ entry.2 := by
  obtain ⟨d, hd1, hd2, hx⟩ :=
    (cluster_zones_mem extrema from_date to_date min_touches period zone_width
      cluster entry).mp h
  obtain ⟨hlen, heq⟩ :=
    dayStep_mem extrema min_touches period zone_width cluster d entry hx
  rw [heq]
  exact ⟨sorted_dayZones _ _ _ _, length_dayZones _ _ _ _,
    d, hd1, hd2, hlen, listMin_mem_dayZones _ _ _ _, listMax_mem_dayZones _ _ _ _⟩

set_option maxRecDepth 8192 in
unseal List.merge List.mergeSort in
/-- **C4, witness.** -/
theorem c4_calendar_lists_witness :
    (((6 : ℤ), [(0 : ℚ), 24]) : ℤ × List ℚ).2.Sorted (· ≤ ·) ∧
      2 ≤ (((6 : ℤ), [(0 : ℚ), 24]) : ℤ × List ℚ).2.length ∧
      ∃ d, (4 : ℤ) ≤ d ∧ d ≤ 4 ∧
        25 ≤ (collectWindow exampleExtrema (d - 30) d).length ∧
        listMin (collectWindow exampleExtrema (d - 30) d) ∈
          (((6 : ℤ), [(0 : ℚ), 24]) : ℤ × List ℚ).2 ∧
        listMax (collectWindow exampleExtrema (d - 30) d) ∈
          (((6 : ℤ), [(0 : ℚ), 24]) : ℤ × List ℚ).2 :=
  c4_calendar_lists exampleExtrema 4 4 0 30 1 (fun _ => []) ((6 : ℤ), [(0 : ℚ), 24])
    (by decide)

/-! ## Claim C5: the weekend carry-forward rule -/

/-- **C5.**  A processed day `D` writes its zone list under both `D+2` and
`D+3` (the two entries being the same list) when `D` is a Friday, and under
the single key `D+1` otherwise; and a write to an already-written key
overwrites the previous value (last writer wins). -/
theorem c5_weekend_rule (extrema : List Bar) (min_touches period : ℤ)
    (zone_width : ℚ) (cluster : List ℚ → List ℚ) (d : ℤ)
    (h : 25 ≤ (collectWindow extrema (d - period) d).length) :
    (weekday d = 4 →
      dayStep extrema min_touches period zone_width cluster d =
        [(d + 2, dayZones (collectWindow extrema (d - period) d) zone_width
            min_touches (cluster (collectWindow extrema (d - period) d))),
         (d + 3, dayZones (collectWindow extrema (d - period) d) zone_width
            min_touches (cluster (collectWindow extrema (d - period) d)))]) ∧
    (weekday d ≠ 4 →
      dayStep extrema min_touches period zone_width cluster d =
        [(d + 1, dayZones (collectWindow extrema (d - period) d) zone_width
            min_touches (cluster (collectWindow extrema (d - period) d)))]) ∧
    (∀ (writes : List (ℤ × List ℚ)) (k : ℤ) (v : List ℚ),
      calLookup (writes ++ [(k, v)]) k = some v) := by
  refine ⟨?_, ?_, calLookup_overwrite⟩
  · intro hf
    rw [dayStep, if_neg (by omega), if_pos hf]
  · intro hf
    rw [dayStep, if_neg (by omega), if_neg hf]

/-- **C5, witness** (day 4 is a Friday in the day-0-is-Monday convention). -/
theorem c5_weekend_rule_witness :
    dayStep exampleExtrema 0 30 1 (fun _ => []) 4 =
      [((4 : ℤ) + 2, dayZones (collectWindow exampleExtrema (4 - 30) 4) 1 0
          ((fun _ => []) (collectWindow exampleExtrema (4 - 30) 4))),
       ((4 : ℤ) + 3, dayZones (collectWindow exampleExtrema (4 - 30) 4) 1 0
          ((fun _ => []) (collectWindow exampleExtrema (4 - 30) 4)))] :=
  (c5_weekend_rule exampleExtrema 0 30 1 (fun _ => []) 4 (by decide)).1 (by decide)

/-! ## Claim C6: touch counting, threshold and rounding -/

/-- **C6.**  The kept-zone computation of a processed day equals its spec
reading: the touch count of a representative is the number of collected
values strictly within `zone_width / 2` of the *unrounded* representative,
a representative is kept exactly when that count reaches `min_touches`
(inclusive), and the reported price of a kept representative is the
representative rounded to 4 decimal places. -/
theorem c6_touch_count_round (values_l : List ℚ) (zone_width : ℚ)
    (min_touches : ℤ) (clusters_l : List ℚ) :
    keptZones values_l zone_width min_touches clusters_l =
        keptZonesSpec values_l zone_width min_touches clusters_l ∧
      ∀ c, touchCount values_l c zone_width =
        values_l.countP fun v => decide (|c - v| < zone_width / 2) :=
  ⟨keptZones_eq_spec values_l zone_width min_touches clusters_l,
    fun c => touchCount_eq_countP values_l c zone_width⟩

/-! ## Claim C7: the peak test -/

/-- **C7.**  For every cursor position `idx`, width `width ≥ 1` and threshold
`th`, the `mymax`-computed peak is the maximum over the window
`[idx, idx+width)` with the *first* occurrence winning ties (every strictly
earlier window position is strictly below it), and the peak test accepts
exactly when `peak - price(first) > th`, `peak - price(last) > th`,
`peak > price(second)` and `peak > price(second-to-last)`. -/
theorem c7_peak_test (bars : List Bar) (idx width : ℕ) (th : ℚ) (h : 1 ≤ width) :
    ∃ i v, mymax 1 bars idx width = some (i, v) ∧
      idx ≤ i ∧ i < idx + width ∧ priceAt bars i = v ∧
      (∀ j, idx ≤ j → j < idx + width → priceAt bars j ≤ v) ∧
      (∀ j, idx ≤ j → j < i → priceAt bars j < v) ∧
      ((peakTest bars idx width th).isSome = true ↔
        (v - priceAt bars (idx + 0) > th ∧ v - priceAt bars (idx + width - 1) > th ∧
          v > priceAt bars (idx + 1) ∧ v > priceAt bars (idx + width - 2))) := by
  obtain ⟨i, v, heq, hi1, hi2, hpv, hub, hfirst⟩ := mymax_one_spec bars idx width h
  exact ⟨i, v, heq, hi1, hi2, hpv, hub, hfirst,
    peakTest_isSome_iff bars idx width th i v heq⟩

/-- **C7, witness.** -/
theorem c7_peak_test_witness :
    ∃ i v, mymax 1 [((0 : ℤ), (1 : ℚ)), ((1 : ℤ), (3 : ℚ)), ((2 : ℤ), (3 : ℚ)),
        ((3 : ℤ), (0 : ℚ)), ((4 : ℤ), (5 : ℚ))] 0 4 = some (i, v) ∧
      0 ≤ i ∧ i < 0 + 4 ∧
      priceAt [((0 : ℤ), (1 : ℚ)), ((1 : ℤ), (3 : ℚ)), ((2 : ℤ), (3 : ℚ)),
        ((3 : ℤ), (0 : ℚ)), ((4 : ℤ), (5 : ℚ))] i = v ∧
      (∀ j, 0 ≤ j → j < 0 + 4 →
        priceAt [((0 : ℤ), (1 : ℚ)), ((1 : ℤ), (3 : ℚ)), ((2 : ℤ), (3 : ℚ)),
          ((3 : ℤ), (0 : ℚ)), ((4 : ℤ), (5 : ℚ))] j ≤ v) ∧
      (∀ j, 0 ≤ j → j < i →
        priceAt [((0 : ℤ), (1 : ℚ)), ((1 : ℤ), (3 : ℚ)), ((2 : ℤ), (3 : ℚ)),
          ((3 : ℤ), (0 : ℚ)), ((4 : ℤ), (5 : ℚ))] j < v) ∧
      ((peakTest [((0 : ℤ), (1 : ℚ)), ((1 : ℤ), (3 : ℚ)), ((2 : ℤ), (3 : ℚ)),
          ((3 : ℤ), (0 : ℚ)), ((4 : ℤ), (5 : ℚ))] 0 4 0).isSome = true ↔
        (v - priceAt [((0 : ℤ), (1 : ℚ)), ((1 : ℤ), (3 : ℚ)), ((2 : ℤ), (3 : ℚ)),
            ((3 : ℤ), (0 : ℚ)), ((4 : ℤ), (5 : ℚ))] (0 + 0) > 0 ∧
          v - priceAt [((0 : ℤ), (1 : ℚ)), ((1 : ℤ), (3 : ℚ)), ((2 : ℤ), (3 : ℚ)),
            ((3 : ℤ), (0 : ℚ)), ((4 : ℤ), (5 : ℚ))] (0 + 4 - 1) > 0 ∧
          v > priceAt [((0 : ℤ), (1 : ℚ)), ((1 : ℤ), (3 : ℚ)), ((2 : ℤ), (3 : ℚ)),
            ((3 : ℤ), (0 : ℚ)), ((4 : ℤ), (5 : ℚ))] (0 + 1) ∧
          v > priceAt [((0 : ℤ), (1 : ℚ)), ((1 : ℤ), (3 : ℚ)), ((2 : ℤ), (3 : ℚ)),
            ((3 : ℤ), (0 : ℚ)), ((4 : ℤ), (5 : ℚ))] (0 + 4 - 2))) :=
  c7_peak_test [((0 : ℤ), (1 : ℚ)), ((1 : ℤ), (3 : ℚ)), ((2 : ℤ), (3 : ℚ)),
    ((3 : ℤ), (0 : ℚ)), ((4 : ℤ), (5 : ℚ))] 0 4 0 (by decide)

/-! ## Claim C8: scan-cursor monotonicity and the short-input case -/

/-- **C8.**  The detection-window starts of the recorded extrema are strictly
increasing in scan order (so no two extrema share a window start, and the scan
— which advances the cursor by the winning width on a match and by 1
otherwise — terminates, being structurally bounded); and a bar sequence
shorter than 12 entries yields no extrema at all. -/
theorem c8_scan_monotone (bars : List Bar) (min_ht : ℚ) :
    (findExtremaLoop bars min_ht bars.length 0).Pairwise (fun a b => a.1 < b.1) ∧
      (bars.length < 12 → find_extrema bars min_ht = []) := by
  refine ⟨findExtremaLoop_pairwise bars min_ht bars.length 0, fun h => ?_⟩
  rw [find_extrema, findExtremaLoop_short bars min_ht h]
  rfl

/-- **C8, witness.** -/
theorem c8_scan_monotone_witness :
    find_extrema [((0 : ℤ), (1 : ℚ)), ((1 : ℤ), (2 : ℚ)), ((2 : ℤ), (3 : ℚ))] 1 = [] :=
  (c8_scan_monotone [((0 : ℤ), (1 : ℚ)), ((1 : ℤ), (2 : ℚ)), ((2 : ℤ), (3 : ℚ))] 1).2
    (by decide)

/-! ## Claim C9: the Interval Compactor's open/close bookkeeping -/

/-- **C9.**  One step of the Interval Compactor, then the finalization:
(a) after processing a date, a price is open with start `s` iff it is present
in that date's list and either it was already open with start `s` (start
preserved) or it was not open and `s` is the current date (opened now);
(b) the step emits exactly the intervals `(q, (t, date))` for prices `q` open
with start `t` but absent from the current date's list (closed now);
(c) after the final date, the output additionally closes every still-open
price with end equal to the last date encountered. -/
theorem c9_interval_compactor (st : LevelsState) (date : ℤ) (prices : List ℚ) :
    (∀ p s, (levelsStep st date prices).cur_prices.lookup p = some s ↔
        (p ∈ prices ∧ (st.cur_prices.lookup p = some s ∨
          (st.cur_prices.lookup p = none ∧ s = date)))) ∧
    (∀ x, x ∈ (levelsStep st date prices).levels ↔
        x ∈ st.levels ∨
          ∃ q t, (q, t) ∈ st.cur_prices ∧ q ∉ prices ∧ x = (q, (t, date))) ∧
    (∀ (cal : List (ℤ × List ℚ)) (e : ℤ × List ℚ), cal.getLast? = some e →
      ∀ x, x ∈ zones_to_levels cal ↔
        x ∈ (levelsRun cal).levels ∨
          ∃ q t, (q, t) ∈ (levelsRun cal).cur_prices ∧ x = (q, (t, e.1))) :=
  ⟨levelsStep_lookup st date prices,
    levelsStep_levels st date prices,
    zones_to_levels_final⟩

/-- **C9, witness.** -/
theorem c9_interval_compactor_witness :
    ((1 : ℚ), ((0 : ℤ), (0 : ℤ))) ∈ zones_to_levels [((0 : ℤ), [(1 : ℚ)])] ↔
      ((1 : ℚ), ((0 : ℤ), (0 : ℤ))) ∈ (levelsRun [((0 : ℤ), [(1 : ℚ)])]).levels ∨
        ∃ q t, (q, t) ∈ (levelsRun [((0 : ℤ), [(1 : ℚ)])]).cur_prices ∧
          ((1 : ℚ), ((0 : ℤ), (0 : ℤ))) =
            (q, (t, ((((0 : ℤ), [(1 : ℚ)])) : ℤ × List ℚ).1)) :=
  (c9_interval_compactor ⟨[], []⟩ 0 [1]).2.2 [((0 : ℤ), [(1 : ℚ)])]
    ((0 : ℤ), [(1 : ℚ)]) rfl ((1 : ℚ), ((0 : ℤ), (0 : ℤ)))

/-! ## Claim C10: rounded representatives vs. unrounded min/max -/

/-- **C10.**  An element of a day's zone list is either the 4-decimal rounding
of a cluster representative that passed the touch filter, or the day's
window minimum, or its maximum — the latter two appended exactly as
collected, without rounding.  So min/max are the only possibly-unrounded
entries, and they always appear. -/
theorem c10_unrounded_min_max (values_l : List ℚ) (zone_width : ℚ)
    (min_touches : ℤ) (clusters_l : List ℚ) (x : ℚ) :
    x ∈ dayZones values_l zone_width min_touches clusters_l ↔
      (∃ c ∈ clusters_l,
        min_touches ≤ (touchCount values_l c zone_width : ℤ) ∧ x = round4 c) ∨
      x = listMin values_l ∨ x = listMax values_l :=
  mem_dayZones values_l zone_width min_touches clusters_l x

end FindSRs
